import Mathlib

set_option maxRecDepth 20000
set_option linter.unusedVariables false

namespace AaaSpec

/-- JavaScript strings are modelled as lists of characters. -/
abbrev Str := List Char

/-- Coerces a Lean string literal to the character-list model. -/
def str (s : String) : Str := s.data

/-- A generated project file, `type WebFile = \x7b name: string; content: string \x7d`
(src/services/geminiService.ts, lines 3-6). -/
structure WebFile where
  name : Str
  content : Str
deriving DecidableEq

/-- The JavaScript regular-expression line terminators: the characters that `.`
(without the `s` flag) does not match. -/
def isLineTerminator (c : Char) : Bool :=
  c = '\n' || c = '\r' || c = ' ' || c = ' '

/-- The JavaScript `\s` character class (WhiteSpace together with LineTerminator). -/
def isJsSpace (c : Char) : Bool :=
  c = ' ' || c = '\t' || c = '\n' || c = '\x0b' || c = '\x0c' || c = '\r' ||
  c = ' ' || c = ' ' ||
  (decide (' ' ≤ c) && decide (c ≤ ' ')) ||
  c = ' ' || c = ' ' || c = ' ' || c = ' ' ||
  c = '　' || c = '﻿'

/-- The `([^\x22]+\.ext)\x22` portion of the two inlining regexes of
`getPreviewContent` (src/unnamed/part_000, lines 145 and 152): the capture group
runs up to the next double quote, must end in the extension, and `[^\x22]+` forces
at least one character before the extension.  Returns the capture and the text
after the closing quote. -/
def tryCapture (ext : Str) (u : Str) : Option (Str × Str) :=
  if (u.dropWhile (fun c => c != '"')).head? = some '"' ∧
      ext <:+ u.takeWhile (fun c => c != '"') ∧
      ext.length < (u.takeWhile (fun c => c != '"')).length then
    some (u.takeWhile (fun c => c != '"'), (u.dropWhile (fun c => c != '"')).tail)
  else none

/-- The `[^>]*>` portion of the inlining regexes, followed by a literal trailer
(`</script>` for the script regex, empty for the link regex).  Since `[^>]` can
never match `>`, the run of non-`>` characters is uniquely determined.  Returns
the consumed text and the remainder. -/
def tryTail (trailer : Str) (v : Str) : Option (Str × Str) :=
  if (v.dropWhile (fun c => c != '>')).head? = some '>' ∧
      trailer.isPrefixOf (v.dropWhile (fun c => c != '>')).tail then
    some (v.takeWhile (fun c => c != '>') ++ '>' :: trailer,
          ((v.dropWhile (fun c => c != '>')).tail).drop trailer.length)
  else none

/-- Matches `attr=\x22([^\x22]+\.ext)\x22[^>]*>trailer` at the very start of `s`.
Returns (consumed text, capture, remainder). -/
def tryAttr (attrq ext trailer : Str) (s : Str) : Option (Str × Str × Str) :=
  if attrq.isPrefixOf s then
    match tryCapture ext (s.drop attrq.length) with
    | some (cap, r1) =>
      match tryTail trailer r1 with
      | some (tcons, r2) => some (attrq ++ cap ++ '"' :: tcons, cap, r2)
      | none => none
    | none => none
  else none

/-- The lazy `.*?` part of the inlining regexes: the shortest prefix of
non-line-terminator characters after which the attribute part matches.  A
failed attribute attempt backtracks by one character, exactly as the JavaScript
engine does.  Returns (consumed text including the attribute part, capture,
remainder). -/
def lazyScan (attrq ext trailer : Str) : Str → Option (Str × Str × Str)
  | [] => none
  | c :: t =>
    match tryAttr attrq ext trailer (c :: t) with
    | some r => some r
    | none =>
      if isLineTerminator c then none
      else
        match lazyScan attrq ext trailer t with
        | some (cons, cap, rest) => some (c :: cons, cap, rest)
        | none => none

/-- Matches one of the two inlining regexes (`tag\s+.*?attr=\x22([^\x22]+\.ext)\x22[^>]*>trailer`)
at the very start of `s`.  `\s+` is greedy; taking its maximal run is complete
here because any shorter run leaves whitespace for `.*?` to traverse, which
fails exactly when the maximal run fails.  Returns (match text, capture,
remainder). -/
def matchAt (tag attrq ext trailer : Str) (s : Str) : Option (Str × Str × Str) :=
  if tag.isPrefixOf s then
    if (s.drop tag.length).takeWhile isJsSpace = [] then none
    else
      match lazyScan attrq ext trailer ((s.drop tag.length).dropWhile isJsSpace) with
      | some (cons, cap, rest) =>
          some (tag ++ (s.drop tag.length).takeWhile isJsSpace ++ cons, cap, rest)
      | none => none
  else none

theorem head?_eq_cons {α : Type} {l : List α} {a : α} (h : l.head? = some a) :
    l = a :: l.tail := by
  cases l <;> simp_all

theorem isPrefixOf_eq_append {l v : Str} (h : l.isPrefixOf v = true) :
    v = l ++ v.drop l.length := by
  have hp : l <+: v := by
    rw [List.isPrefixOf_iff_prefix] at h
    exact h
  exact (List.prefix_iff_eq_append.mp hp).symm

theorem tryCapture_eq {ext u cap r1} (h : tryCapture ext u = some (cap, r1)) :
    u = cap ++ '"' :: r1 := by
  unfold tryCapture at h
  split at h
  · next hcond =>
    obtain ⟨h1, _, _⟩ := hcond
    cases h
    conv_lhs => rw [← List.takeWhile_append_dropWhile (p := fun c => c != '"') (l := u)]
    rw [head?_eq_cons h1]
    simp
  · exact absurd h (by simp)

theorem tryTail_eq {trailer v tcons r2} (h : tryTail trailer v = some (tcons, r2)) :
    v = tcons ++ r2 := by
  unfold tryTail at h
  split at h
  · next hcond =>
    obtain ⟨h1, h2⟩ := hcond
    cases h
    conv_lhs => rw [← List.takeWhile_append_dropWhile (p := fun c => c != '>') (l := v)]
    rw [head?_eq_cons h1]
    simp only [List.append_assoc, List.cons_append, List.nil_append]
    rw [isPrefixOf_eq_append h2]
    simp
  · exact absurd h (by simp)

theorem tryAttr_eq {attrq ext trailer s cons cap r2}
    (h : tryAttr attrq ext trailer s = some (cons, cap, r2)) :
    s = cons ++ r2 := by
  unfold tryAttr at h
  split at h
  · next hpre =>
    split at h
    · next cap1 r1 hcap =>
      split at h
      · next tcons r2' htail =>
        cases h
        have h1 := isPrefixOf_eq_append hpre
        have h2 := tryCapture_eq hcap
        have h3 := tryTail_eq htail
        conv_lhs => rw [h1, h2, h3]
        simp
      · exact absurd h (by simp)
    · exact absurd h (by simp)
  · exact absurd h (by simp)

theorem lazyScan_eq {attrq ext trailer s cons cap rest}
    (h : lazyScan attrq ext trailer s = some (cons, cap, rest)) :
    s = cons ++ rest := by
  induction s generalizing cons cap rest with
  | nil => exact absurd h (by simp [lazyScan])
  | cons c t ih =>
    unfold lazyScan at h
    split at h
    · next r hattr =>
      cases h
      exact tryAttr_eq hattr
    · split at h
      · exact absurd h (by simp)
      · split at h
        · next cons' cap' rest' hrec =>
          cases h
          have := ih hrec
          rw [List.cons_append, ← this]
        · exact absurd h (by simp)

theorem matchAt_eq {tag attrq ext trailer s m cap rest}
    (h : matchAt tag attrq ext trailer s = some (m, cap, rest)) :
    s = m ++ rest ∧ 0 < m.length := by
  unfold matchAt at h
  split at h
  · next hpre =>
    split at h
    · exact absurd h (by simp)
    · next hws =>
      split at h
      · next cons cap' rest' hscan =>
        cases h
        constructor
        · have h1 := isPrefixOf_eq_append hpre
          have h2 := lazyScan_eq hscan
          conv_lhs => rw [h1]
          conv_lhs =>
            rw [← List.takeWhile_append_dropWhile (p := isJsSpace) (l := s.drop tag.length)]
          rw [h2]
          simp
        · have : (s.drop tag.length).takeWhile isJsSpace ≠ [] := hws
          cases htw : (s.drop tag.length).takeWhile isJsSpace with
          | nil => exact absurd htw this
          | cons a b => simp [htw]
      · exact absurd h (by simp)
  · exact absurd h (by simp)

theorem matchAt_rest_lt {tag attrq ext trailer s m cap rest}
    (h : matchAt tag attrq ext trailer s = some (m, cap, rest)) :
    rest.length < s.length := by
  obtain ⟨heq, hpos⟩ := matchAt_eq h
  have hlen : s.length = m.length + rest.length := by
    rw [heq, List.length_append]
  omega

/-- The global `String.replace(regex, callback)` loop of `getPreviewContent`
(src/unnamed/part_000, lines 146 and 153), written with explicit fuel so that
the recursion is structural: scan left to right, replace each non-overlapping
leftmost match by the callback's result (used verbatim, no `$` substitution for
function replacers), continue after the match.  Every step consumes at least
one character, so fuel at least the input length never runs out
(`replaceScanF_fuel_irrel`). -/
def replaceScanF (tag attrq ext trailer : Str) (repl : Str → Str → Str) :
    Nat → Str → Str
  | _, [] => []
  | 0, s => s
  | fuel + 1, c :: t =>
    match matchAt tag attrq ext trailer (c :: t) with
    | some (m, cap, rest) => repl m cap ++ replaceScanF tag attrq ext trailer repl fuel rest
    | none => c :: replaceScanF tag attrq ext trailer repl fuel t

/-- `String.replace(regex, callback)`: the fuelled scan started with enough
fuel for the whole input. -/
def replaceScan (tag attrq ext trailer : Str) (repl : Str → Str → Str) (s : Str) : Str :=
  replaceScanF tag attrq ext trailer repl s.length s

theorem replaceScanF_fuel_irrel {tag attrq ext trailer : Str} {repl : Str → Str → Str} :
    ∀ (f1 : Nat), ∀ (f2 : Nat) (s : Str), s.length ≤ f1 → s.length ≤ f2 →
      replaceScanF tag attrq ext trailer repl f1 s =
        replaceScanF tag attrq ext trailer repl f2 s := by
  intro f1
  induction f1 with
  | zero =>
    intro f2 s h1 h2
    have hs : s = [] := by
      cases s with
      | nil => rfl
      | cons a b => simp at h1
    subst hs
    cases f2 <;> rfl
  | succ f1' ih =>
    intro f2 s h1 h2
    cases s with
    | nil => cases f2 <;> rfl
    | cons c t =>
      cases f2 with
      | zero => simp at h2
      | succ f2' =>
        rw [replaceScanF, replaceScanF]
        cases hm : matchAt tag attrq ext trailer (c :: t) with
        | some r =>
          obtain ⟨m, cap, rest⟩ := r
          have hlt := matchAt_rest_lt hm
          simp only [List.length_cons] at hlt h1 h2
          simp only [hm]
          rw [ih f2' rest (by omega) (by omega)]
        | none =>
          simp only [List.length_cons] at h1 h2
          simp only [hm]
          rw [ih f2' t (by omega) (by omega)]

/-- The `link` replacement callback of `getPreviewContent` (src/unnamed/part_000,
lines 146-149): a matched stylesheet link becomes an inline style block when the
referenced file exists, and is kept verbatim otherwise. -/
def styleRepl (files : List WebFile) (m cap : Str) : Str :=
  match files.find? (fun f => f.name == cap) with
  | some cssFile => str "<style>\n" ++ cssFile.content ++ str "\n</style>"
  | none => m

/-- The `script` replacement callback of `getPreviewContent` (src/unnamed/part_000,
lines 153-156). -/
def scriptRepl (files : List WebFile) (m cap : Str) : Str :=
  match files.find? (fun f => f.name == cap) with
  | some jsFile => str "<script>\n" ++ jsFile.content ++ str "\n</script>"
  | none => m

/-- `htmlContent.replace(linkRegex, ...)` with
`linkRegex = /<link\s+.*?href="([^"]+\.css)"[^>]*>/g` (src/unnamed/part_000,
lines 145-149). -/
def replaceLinks (files : List WebFile) (s : Str) : Str :=
  replaceScan (str "<link") (str "href=\"") (str ".css") [] (styleRepl files) s

/-- `htmlContent.replace(scriptRegex, ...)` with
`scriptRegex = /<script\s+.*?src="([^"]+\.js)"[^>]*><\/script>/g`
(src/unnamed/part_000, lines 152-156). -/
def replaceScripts (files : List WebFile) (s : Str) : Str :=
  replaceScan (str "<script") (str "src=\"") (str ".js") (str "</script>") (scriptRepl files) s

/-- Lower-case hexadecimal digit, for JSON escape sequences. -/
def hexDigit (n : Nat) : Char :=
  if n < 10 then Char.ofNat (48 + n) else Char.ofNat (87 + n)

/-- `JSON.stringify` escaping of a single character. -/
def jsonEscapeChar (c : Char) : Str :=
  if c = '"' then ['\\', '"']
  else if c = '\\' then ['\\', '\\']
  else if c = '\x08' then ['\\', 'b']
  else if c = '\x0c' then ['\\', 'f']
  else if c = '\n' then ['\\', 'n']
  else if c = '\r' then ['\\', 'r']
  else if c = '\t' then ['\\', 't']
  else if c.toNat < 32 then ['\\', 'u', '0', '0', hexDigit (c.toNat / 16), hexDigit (c.toNat % 16)]
  else [c]

/-- `JSON.stringify` of a string value. -/
def jsonString (s : Str) : Str :=
  '"' :: (s.map jsonEscapeChar).flatten ++ ['"']

/-- `JSON.stringify` of one `(\x7b name: f.name, content: f.content \x7d)` object;
property order is creation order (`name` first, then `content`). -/
def jsonFileObj (f : WebFile) : Str :=
  str "\x7b\"name\":" ++ jsonString f.name ++ str ",\"content\":" ++ jsonString f.content ++ str "\x7d"

/-- `JSON.stringify` of the mapped file array: no whitespace separators. -/
def jsonFilesArray (files : List WebFile) : Str :=
  '[' :: List.intercalate [','] (files.map jsonFileObj) ++ [']']

/-- Text of the navigation-script template literal before the
`allFilesForNav` interpolation (src/unnamed/part_000, line 160-162). -/
def navigationScriptPrefix : Str :=
  str "\n      <script>\n        const allPages = "

/-- Text of the navigation-script template literal after the
`allFilesForNav` interpolation (src/unnamed/part_000, lines 162-198), verbatim. -/
def navigationScriptSuffix : Str :=
  str ";\n        document.addEventListener('DOMContentLoaded', () => \x7b\n          // Virtual navigation for standard links\n          document.querySelectorAll('a').forEach(link => \x7b\n            link.addEventListener('click', (event) => \x7b\n              const href = link.getAttribute('href');\n              const targetPage = allPages.find(p => p.name === href);\n              if (href && !href.startsWith('http') && !href.startsWith('#') && targetPage) \x7b\n                event.preventDefault();\n                document.body.innerHTML = new DOMParser().parseFromString(targetPage.content, 'text/html').body.innerHTML;\n                \n                // Re-run scripts from the new body\n                const newScripts = document.body.querySelectorAll('script');\n                newScripts.forEach(oldScript => \x7b\n                  const newScript = document.createElement('script');\n                  Array.from(oldScript.attributes).forEach(attr => newScript.setAttribute(attr.name, attr.value));\n                  newScript.appendChild(document.createTextNode(oldScript.innerHTML));\n                  oldScript.parentNode.replaceChild(newScript, oldScript);\n                \x7d);\n\n                // Re-attach listeners for the new DOM\n                window.parent.postMessage(\x7b type: 'virtual-nav-reinit' \x7d, '*');\n              \x7d\n            \x7d);\n          \x7d);\n        \x7d);\n\n        // Listener to re-initialize after a virtual nav\n         window.addEventListener('message', (event) => \x7b\n          if(event.data && event.data.type === 'virtual-nav-reinit') \x7b\n            // This is a bit of a trick to re-run the DOMContentLoaded logic\n            const fakeEvent = new Event('DOMContentLoaded');\n            document.dispatchEvent(fakeEvent);\n          \x7d\n        \x7d);\n      </script>\n    "

/-- The full interpolated navigation-script text: the template with
`JSON.stringify(files.filter(f => f.name.endsWith('.html')).map(f => (\x7b name, content \x7d)))`
spliced in (src/unnamed/part_000, lines 158-198). -/
def navigationScript (files : List WebFile) : Str :=
  navigationScriptPrefix ++
    jsonFilesArray ((files.filter (fun f => (str ".html").isSuffixOf f.name)).map
      (fun f => ⟨f.name, f.content⟩)) ++
    navigationScriptSuffix

/-- First-occurrence split: `splitFirst pat s = some (pre, post)` means
`s = pre ++ pat ++ post` with `pre` shortest possible; `none` means `pat` does
not occur in `s`.  This is `String.prototype.indexOf` as used by
`String.prototype.replace` with a string search value. -/
def splitFirst (pat : Str) : Str → Option (Str × Str)
  | [] => if pat = [] then some ([], []) else none
  | c :: t =>
    if pat.isPrefixOf (c :: t) then some ([], (c :: t).drop pat.length)
    else
      match splitFirst pat t with
      | some (pre, post) => some (c :: pre, post)
      | none => none

/-- ECMAScript `GetSubstitution` for a string search value (no capture groups,
no named captures): in the replacement string, `$$` yields `$`, `$&` the
matched text, a dollar followed by a backquote the text before the match, and
a dollar followed by a straight apostrophe the text after the match; every
other `$` is literal.  `String.prototype.replace` applies this to string
replacement values — relevant because `getPreviewContent` injects the
navigation script via `htmlContent.replace('</body>', ...)` with a string
replacement (src/unnamed/part_000, line 199). -/
def getSubstitution (matched pre post : Str) : Str → Str
  | [] => []
  | c :: t =>
    if c = '$' then
      match t with
      | [] => ['$']
      | d :: r =>
        if d = '$' then '$' :: getSubstitution matched pre post r
        else if d = '&' then matched ++ getSubstitution matched pre post r
        else if d = Char.ofNat 96 then pre ++ getSubstitution matched pre post r
        else if d = Char.ofNat 39 then post ++ getSubstitution matched pre post r
        else '$' :: getSubstitution matched pre post (d :: r)
    else c :: getSubstitution matched pre post t

/-- JavaScript `s.replace(pat, repl)` for string `pat` and string `repl`:
replaces the first occurrence of `pat`, applying `GetSubstitution` to `repl`. -/
def jsReplaceFirst (s pat repl : Str) : Str :=
  match splitFirst pat s with
  | none => s
  | some (pre, post) => pre ++ getSubstitution pat pre post repl ++ post

/-- The diagnostic comment returned when the active page cannot be found
(src/unnamed/part_000, line 140). -/
def previewErrorComment (activePreviewPage : Str) : Str :=
  str "<!-- Preview Error: Could not find HTML file \"" ++ activePreviewPage ++ str "\" -->"

/-- `getPreviewContent` (src/unnamed/part_000, lines 136-200): the preview
compositor.  Empty file list yields the empty string; a missing or non-`.html`
active page yields the diagnostic comment; otherwise stylesheet links and local
scripts are inlined and the navigation script is spliced in at the first
occurrence of the substring `</body>`. -/
def getPreviewContent (files : List WebFile) (activePreviewPage : Str) : Str :=
  if files.length = 0 then []
  else
    match files.find? (fun f => f.name == activePreviewPage) with
    | none => previewErrorComment activePreviewPage
    | some pageFile =>
      if (str ".html").isSuffixOf pageFile.name then
        jsReplaceFirst (replaceScripts files (replaceLinks files pageFile.content))
          (str "</body>") (navigationScript files ++ str "</body>")
      else previewErrorComment activePreviewPage

/-- The `!files` guard of `getPreviewContent` (line 137): a null file list also
yields the empty string. -/
def getPreviewContentNullable (files : Option (List WebFile)) (activePreviewPage : Str) : Str :=
  match files with
  | none => []
  | some fs => getPreviewContent fs activePreviewPage

/-- The active-preview-page reset effect (src/unnamed/part_000, lines 77-79):
`if (!files.some(f => f.name === activePreviewPage)) setActivePreviewPage('index.html')`.
Returns the post-effect value of `activePreviewPage`. -/
def resetActivePreviewPage (files : List WebFile) (activePreviewPage : Str) : Str :=
  if files.any (fun f => f.name == activePreviewPage) then activePreviewPage
  else str "index.html"

/-- The selected-file reset effect (src/unnamed/part_000, lines 74-76):
`setSelectedFile(files.find(f => f.name === 'index.html')?.name || files[0]?.name || '')`.
Returns the post-effect value of `selectedFile`. -/
def resetSelectedFile (files : List WebFile) (selectedFile : Str) : Str :=
  if files.any (fun f => f.name == selectedFile) then selectedFile
  else
    match files.find? (fun f => f.name == str "index.html") with
    | some f => f.name
    | none =>
      match files.head? with
      | some f => f.name
      | none => []

/-- Observable outcome of one click on an anchor inside the preview document.
`intercepted t` stands for: default navigation prevented, body swapped to the
parsed body of `t.content`, and the outbound `virtual-nav-reinit` message
posted to the host. -/
inductive ClickOutcome where
  | native : ClickOutcome
  | intercepted (target : WebFile) : ClickOutcome
deriving DecidableEq

/-- The click interceptor of the embedded navigation script
(src/unnamed/part_000, lines 166-185): `href` is the anchor's attribute value
(`none` models a missing attribute, which `getAttribute` reports as null);
`allPages` is the embedded page table.  The guard is
`if (href && !href.startsWith('http') && !href.startsWith('#') && targetPage)`. -/
def clickHandler (allPages : List WebFile) (href : Option Str) : ClickOutcome :=
  match href with
  | none => .native
  | some h =>
    match allPages.find? (fun p => p.name == h) with
    | some targetPage =>
      if !h.isEmpty && !(str "http").isPrefixOf h && !(str "#").isPrefixOf h then
        .intercepted targetPage
      else .native
    | none => .native

/-- A JavaScript value as seen by the `key in parsed` checks of
`parseJsonResponse`: `obj keys` abstracts an object (or array) by the set of
property names for which `in` yields true; `nonObj` is a primitive, on which
the `in` operator throws a TypeError. -/
inductive JsValue where
  | obj (keys : List Str) : JsValue
  | nonObj : JsValue
deriving DecidableEq

/-- `schema.required.every(key => key in parsed)` (src/services/geminiService.ts,
lines 75 and 87): `some b` is a normal completion with result `b`, `none` is a
thrown TypeError (`in` applied to a primitive); `every` short-circuits on the
first false. -/
def keysOk (required : List Str) (v : JsValue) : Option Bool :=
  match required with
  | [] => some true
  | k :: rest =>
    match v with
    | .nonObj => none
    | .obj ks => if ks.contains k then keysOk rest v else some false

/-- The `([\s\S]*?)\s*` (backquote backquote backquote) tail of the fence regex:
the lazy capture grows until, after skipping the maximal whitespace run, a
closing triple backquote follows.  Returns the capture. -/
def fenceClose : Str → Option Str
  | [] => none
  | c :: r =>
    if (str "```").isPrefixOf ((c :: r).dropWhile isJsSpace) then some []
    else
      match fenceClose r with
      | some cap => some (c :: cap)
      | none => none

/-- `rawText.match(/(triple backquote)json\s*([\s\S]*?)\s*(triple backquote)/)`
(src/services/geminiService.ts, line 83): scan for the leftmost position where
the whole fence pattern matches, and return capture group 1. -/
def extractFenced : Str → Option Str
  | [] => none
  | c :: t =>
    if (str "```json").isPrefixOf (c :: t) then
      match fenceClose (((c :: t).drop 7).dropWhile isJsSpace) with
      | some cap => some cap
      | none => extractFenced t
    else extractFenced t

/-- Result of `parseJsonResponse`: a returned value or a thrown `Error` with
the given message. -/
inductive ParseOutcome where
  | ok (v : JsValue) : ParseOutcome
  | err (msg : Str) : ParseOutcome
deriving DecidableEq

/-- The message of the final `throw` of `parseJsonResponse`
(src/services/geminiService.ts, line 94). -/
def parseErrorMessage : Str :=
  str "Could not parse a valid object from the model's response."

/-- The catch block of `parseJsonResponse` (src/services/geminiService.ts,
lines 79-95): extract a fenced block, parse it, return it when all required
keys are present, and otherwise throw the parse error.  `jp` abstracts the
host's `JSON.parse` (`none` = thrown SyntaxError). -/
def parseFallback (jp : Str → Option JsValue) (required : List Str) (rawText : Str) :
    ParseOutcome :=
  match extractFenced rawText with
  | some captured =>
    match jp captured with
    | some v =>
      match keysOk required v with
      | some true => .ok v
      | _ => .err parseErrorMessage
    | none => .err parseErrorMessage
  | none => .err parseErrorMessage

/-- `parseJsonResponse(rawText, schema)` (src/services/geminiService.ts, lines
71-96): try a direct parse of the whole body; any thrown error — parse failure,
the explicit missing-keys `Error`, or the TypeError from `in` on a primitive —
lands in the catch block, which attempts the fenced fallback. -/
def parseJsonResponse (jp : Str → Option JsValue) (required : List Str) (rawText : Str) :
    ParseOutcome :=
  match jp rawText with
  | some parsed =>
    match keysOk required parsed with
    | some true => .ok parsed
    | _ => parseFallback jp required rawText
  | none => parseFallback jp required rawText

/-- Specification-side reading of the first attempt: a successful direct parse
of the whole body that has all required top-level keys. -/
def directAttempt (jp : Str → Option JsValue) (required : List Str) (rawText : Str) :
    Option JsValue :=
  match jp rawText with
  | some v =>
    match keysOk required v with
    | some true => some v
    | _ => none
  | none => none

/-- Specification-side reading of the second attempt: a successfully extracted
and parsed fenced block that has all required top-level keys. -/
def fencedAttempt (jp : Str → Option JsValue) (required : List Str) (rawText : Str) :
    Option JsValue :=
  match extractFenced rawText with
  | some captured =>
    match jp captured with
    | some v =>
      match keysOk required v with
      | some true => some v
      | _ => none
    | none => none
  | none => none

/-- A chat message of the refinement transcript (src/unnamed/part_000,
lines 15-19). -/
structure RefinementChatMessage where
  id : Nat
  role : Str
  content : Str
deriving DecidableEq

/-- The `App` component state relevant to request gating (src/unnamed/part_000,
lines 388-394). -/
structure AppState where
  appFiles : Option (List WebFile)
  isGenerating : Bool
  isRefining : Bool
  refinementPrompt : Str
  refinementHistory : List RefinementChatMessage
  error : Option Str
deriving DecidableEq

/-- A request issued to an external collaborator. -/
inductive OutboundRequest where
  | generate (prompt : Str) : OutboundRequest
  | refine (prompt : Str) (files : List WebFile) : OutboundRequest
deriving DecidableEq

/-- JavaScript `String.prototype.trim`. -/
def jsTrim (s : Str) : Str :=
  ((s.dropWhile isJsSpace).reverse.dropWhile isJsSpace).reverse

/-- The synchronous prelude of `handleGenerate` (src/unnamed/part_000, lines
401-409), up to and including issuing the request:
`if (!promptText.trim() || isGenerating) return;` then set the busy flag, clear
error, files and history, and call the generation collaborator. -/
def handleGenerateStart (s : AppState) (promptText : Str) :
    AppState × Option OutboundRequest :=
  if (jsTrim promptText).isEmpty || s.isGenerating then (s, none)
  else
    ({ s with isGenerating := true, error := none, appFiles := none,
              refinementHistory := [] },
     some (.generate promptText))

/-- The synchronous prelude of `handleRefine` (src/unnamed/part_000, lines
421-435): `if (!refinementPrompt.trim() || !appFiles || isRefining) return;`
then append the user message (its id is `Date.now()`, passed as `now`), clear
the prompt, set the busy flag, clear the error, and call the refinement
collaborator. -/
def handleRefineStart (now : Nat) (s : AppState) : AppState × Option OutboundRequest :=
  if (jsTrim s.refinementPrompt).isEmpty || s.appFiles.isNone || s.isRefining then (s, none)
  else
    match s.appFiles with
    | some fs =>
      ({ s with
          refinementHistory := s.refinementHistory ++ [⟨now, str "user", s.refinementPrompt⟩],
          refinementPrompt := [],
          isRefining := true,
          error := none },
       some (.refine s.refinementPrompt fs))
    | none => (s, none)

/-- How a file set returned by the generation or refinement collaborator enters
the store: `setAppFiles(newCode)` (src/unnamed/part_000, lines 410 and 437) and
`return parsed.files` (src/services/geminiService.ts, line 142) pass the list
through verbatim — there is no validation step. -/
def storeGeneratedFiles (incoming : List WebFile) : List WebFile := incoming

theorem isPrefixOf_append_self (l m : Str) : l.isPrefixOf (l ++ m) = true := by
  rw [List.isPrefixOf_iff_prefix]
  exact List.prefix_append l m

theorem any_eq_false_of_not_true {files : List WebFile} {p : WebFile → Bool}
    (h : ¬ files.any p = true) : files.any p = false := by
  cases hx : files.any p
  · rfl
  · exact absurd hx h

theorem takeWhile_middle {p : Char → Bool} {l : Str} {x : Char} (r : Str)
    (hl : ∀ c ∈ l, p c = true) (hx : p x = false) :
    (l ++ x :: r).takeWhile p = l := by
  induction l with
  | nil => simp [List.takeWhile_cons, hx]
  | cons a t ih =>
    have ha : p a = true := hl a (by simp)
    simp only [List.cons_append, List.takeWhile_cons, ha, if_true]
    rw [ih (fun c hc => hl c (by simp [hc]))]

theorem dropWhile_middle {p : Char → Bool} {l : Str} {x : Char} (r : Str)
    (hl : ∀ c ∈ l, p c = true) (hx : p x = false) :
    (l ++ x :: r).dropWhile p = x :: r := by
  induction l with
  | nil => simp [List.dropWhile_cons, hx]
  | cons a t ih =>
    have ha : p a = true := hl a (by simp)
    simp only [List.cons_append, List.dropWhile_cons, ha, if_true]
    exact ih (fun c hc => hl c (by simp [hc]))

theorem nil_isPrefixOf (l : Str) : ([] : Str).isPrefixOf l = true := by
  cases l <;> rfl

theorem matchAt_none_of_not_prefix {tag attrq ext trailer s}
    (h : tag.isPrefixOf s = false) :
    matchAt tag attrq ext trailer s = none := by
  unfold matchAt
  rw [h]
  rfl

theorem replaceScan_nil (tag attrq ext trailer : Str) (repl : Str → Str → Str) :
    replaceScan tag attrq ext trailer repl [] = [] := rfl

theorem replaceScan_cons_none {tag attrq ext trailer c t} (repl : Str → Str → Str)
    (h : matchAt tag attrq ext trailer (c :: t) = none) :
    replaceScan tag attrq ext trailer repl (c :: t) =
      c :: replaceScan tag attrq ext trailer repl t := by
  unfold replaceScan
  simp only [List.length_cons]
  rw [replaceScanF]
  simp only [h]

theorem replaceScan_cons_some {tag attrq ext trailer c t m cap rest}
    (repl : Str → Str → Str)
    (h : matchAt tag attrq ext trailer (c :: t) = some (m, cap, rest)) :
    replaceScan tag attrq ext trailer repl (c :: t) =
      repl m cap ++ replaceScan tag attrq ext trailer repl rest := by
  unfold replaceScan
  simp only [List.length_cons]
  rw [replaceScanF]
  simp only [h]
  have hlt := matchAt_rest_lt h
  simp only [List.length_cons] at hlt
  rw [replaceScanF_fuel_irrel t.length rest.length rest (by omega) (by omega)]

/-- No literal occurrence can start strictly inside `pre` when `pre` does not
contain the literal and the continuation starts with the literal's head
character `a` (no occurrence can straddle the boundary, because every literal
character after the first differs from `a`). -/
theorem isPrefixOf_false_in_pre {tag pre z : Str} {a : Char}
    (hinf : ¬ tag <:+: pre)
    (hhead : ∃ zt, z = a :: zt)
    (htag : ∀ j, j < tag.length → 0 < j → tag.get? j ≠ some a)
    (i : Nat) (hi : i < pre.length) :
    tag.isPrefixOf (pre.drop i ++ z) = false := by
  cases hb : tag.isPrefixOf (pre.drop i ++ z) with
  | false => rfl
  | true =>
    exfalso
    have hp : tag <+: (pre.drop i ++ z) := List.isPrefixOf_iff_prefix.mp hb
    have hslen : 0 < (pre.drop i).length := by
      rw [List.length_drop]
      omega
    by_cases hle : tag.length ≤ (pre.drop i).length
    · have htake : tag <+: pre.drop i := by
        obtain ⟨t, ht⟩ := hp
        have h1 : tag = (pre.drop i ++ z).take tag.length := by
          rw [← ht]
          simp
        rw [List.take_append_eq_append_take] at h1
        have h2 : tag.length - (pre.drop i).length = 0 := by omega
        rw [h2] at h1
        simp at h1
        rw [h1]
        exact List.take_prefix _ _
      exact hinf (htake.isInfix.trans (List.drop_suffix i pre).isInfix)
    · push_neg at hle
      obtain ⟨t, ht⟩ := hp
      obtain ⟨zt, hz⟩ := hhead
      have hget : (tag ++ t).get? (pre.drop i).length =
          (pre.drop i ++ z).get? (pre.drop i).length := by rw [ht]
      have h1 : (tag ++ t).get? (pre.drop i).length = tag.get? (pre.drop i).length :=
        List.get?_append (by omega)
      have h2 : (pre.drop i ++ z).get? (pre.drop i).length = z.get? 0 := by
        rw [List.get?_append_right (by omega)]
        simp
      rw [h1, h2, hz] at hget
      exact htag (pre.drop i).length hle hslen (by simpa using hget)

theorem replaceScan_skip {tag attrq ext trailer : Str} {repl : Str → Str → Str} (pre z : Str)
    (h : ∀ i, i < pre.length → matchAt tag attrq ext trailer (pre.drop i ++ z) = none) :
    replaceScan tag attrq ext trailer repl (pre ++ z) =
      pre ++ replaceScan tag attrq ext trailer repl z := by
  induction pre with
  | nil => simp
  | cons c t ih =>
    have h0 := h 0 (by simp)
    simp only [List.drop_zero] at h0
    rw [List.cons_append]
    rw [replaceScan_cons_none repl (by rw [← List.cons_append]; exact h0)]
    rw [ih (fun i hi => by
      have := h (i + 1) (by simp; omega)
      simpa using this)]
    simp

theorem takeWhile_append2 {p : Char → Bool} {l r : Str}
    (hl : ∀ c ∈ l, p c = true) (hr : ∀ c ∈ r.take 1, p c = false) :
    (l ++ r).takeWhile p = l := by
  induction l with
  | nil =>
    cases r with
    | nil => rfl
    | cons x r2 =>
      have hx : p x = false := hr x (by simp)
      simp [List.takeWhile_cons, hx]
  | cons a t ih =>
    have ha : p a = true := hl a (by simp)
    simp only [List.cons_append, List.takeWhile_cons, ha, if_true]
    rw [ih (fun c hc => hl c (by simp [hc]))]

theorem dropWhile_append2 {p : Char → Bool} {l r : Str}
    (hl : ∀ c ∈ l, p c = true) (hr : ∀ c ∈ r.take 1, p c = false) :
    (l ++ r).dropWhile p = r := by
  induction l with
  | nil =>
    cases r with
    | nil => rfl
    | cons x r2 =>
      have hx : p x = false := hr x (by simp)
      simp [List.dropWhile_cons, hx]
  | cons a t ih =>
    have ha : p a = true := hl a (by simp)
    simp only [List.cons_append, List.dropWhile_cons, ha, if_true]
    exact ih (fun c hc => hl c (by simp [hc]))

theorem tryTail_attrs_nil (attrs rest : Str) (ha : ∀ c ∈ attrs, c ≠ '>') :
    tryTail ([] : Str) (attrs ++ '>' :: rest) = some (attrs ++ ['>'], rest) := by
  unfold tryTail
  have ha2 : ∀ c ∈ attrs, ((fun c => c != '>') c) = true := fun c hc => by simp [ha c hc]
  have hx : ((fun c => c != '>') '>') = false := by simp
  rw [takeWhile_middle rest ha2 hx, dropWhile_middle rest ha2 hx]
  rw [if_pos ⟨rfl, nil_isPrefixOf rest⟩]
  simp

theorem tryTail_attrs_script (attrs rest : Str) (ha : ∀ c ∈ attrs, c ≠ '>') :
    tryTail (str "</script>") (attrs ++ '>' :: (str "</script>" ++ rest)) =
      some (attrs ++ '>' :: str "</script>", rest) := by
  unfold tryTail
  have ha2 : ∀ c ∈ attrs, ((fun c => c != '>') c) = true := fun c hc => by simp [ha c hc]
  have hx : ((fun c => c != '>') '>') = false := by simp
  rw [takeWhile_middle (str "</script>" ++ rest) ha2 hx,
      dropWhile_middle (str "</script>" ++ rest) ha2 hx]
  rw [if_pos ⟨rfl, isPrefixOf_append_self _ _⟩]
  rw [List.tail_cons, List.drop_left]

theorem tryCapture_elt {ext h : Str} (tail2 : Str) (hq : ∀ c ∈ h, c ≠ '"')
    (hsuf : ext <:+ h) (hlen : ext.length < h.length) :
    tryCapture ext (h ++ '"' :: tail2) = some (h, tail2) := by
  unfold tryCapture
  have hq2 : ∀ c ∈ h, ((fun c => c != '"') c) = true := fun c hc => by simp [hq c hc]
  have hx : ((fun c => c != '"') '"') = false := by simp
  rw [takeWhile_middle tail2 hq2 hx, dropWhile_middle tail2 hq2 hx]
  rw [if_pos ⟨rfl, hsuf, hlen⟩]
  rfl

theorem tryAttr_none_of_not_prefix {attrq ext trailer s : Str}
    (h : attrq.isPrefixOf s = false) :
    tryAttr attrq ext trailer s = none := by
  unfold tryAttr
  rw [h]
  rfl

theorem tryAttr_linkElt_gen {h attrs rest : Str} (hq : ∀ c ∈ h, c ≠ '"')
    (hsuf : (str ".css") <:+ h) (hlen : (str ".css").length < h.length)
    (hattrs : ∀ c ∈ attrs, c ≠ '>') :
    tryAttr (str "href=\"") (str ".css") []
        (str "href=\"" ++ (h ++ '"' :: (attrs ++ '>' :: rest))) =
      some (str "href=\"" ++ h ++ '"' :: (attrs ++ ['>']), h, rest) := by
  unfold tryAttr
  rw [if_pos (isPrefixOf_append_self _ _), List.drop_left]
  rw [tryCapture_elt (attrs ++ '>' :: rest) hq hsuf hlen]
  have ht := tryTail_attrs_nil attrs rest hattrs
  simp only [ht]

theorem lazyScan_linkElt_gen {h attrs rest : Str} (hq : ∀ c ∈ h, c ≠ '"')
    (hsuf : (str ".css") <:+ h) (hlen : (str ".css").length < h.length)
    (hattrs : ∀ c ∈ attrs, c ≠ '>') :
    lazyScan (str "href=\"") (str ".css") []
        (str "href=\"" ++ (h ++ '"' :: (attrs ++ '>' :: rest))) =
      some (str "href=\"" ++ h ++ '"' :: (attrs ++ ['>']), h, rest) := by
  rw [show str "href=\"" ++ (h ++ '"' :: (attrs ++ '>' :: rest)) =
      'h' :: (str "ref=\"" ++ (h ++ '"' :: (attrs ++ '>' :: rest))) from rfl]
  rw [lazyScan]
  have ha : tryAttr (str "href=\"") (str ".css") []
      ('h' :: (str "ref=\"" ++ (h ++ '"' :: (attrs ++ '>' :: rest)))) =
      some (str "href=\"" ++ h ++ '"' :: (attrs ++ ['>']), h, rest) :=
    tryAttr_linkElt_gen hq hsuf hlen hattrs
  rw [ha]

theorem tryAttr_scriptElt_gen {h attrs rest : Str} (hq : ∀ c ∈ h, c ≠ '"')
    (hsuf : (str ".js") <:+ h) (hlen : (str ".js").length < h.length)
    (hattrs : ∀ c ∈ attrs, c ≠ '>') :
    tryAttr (str "src=\"") (str ".js") (str "</script>")
        (str "src=\"" ++ (h ++ '"' :: (attrs ++ '>' :: (str "</script>" ++ rest)))) =
      some (str "src=\"" ++ h ++ '"' :: (attrs ++ '>' :: str "</script>"), h, rest) := by
  unfold tryAttr
  rw [if_pos (isPrefixOf_append_self _ _), List.drop_left]
  rw [tryCapture_elt (attrs ++ '>' :: (str "</script>" ++ rest)) hq hsuf hlen]
  have ht := tryTail_attrs_script attrs rest hattrs
  simp only [ht]

theorem lazyScan_scriptElt_gen {h attrs rest : Str} (hq : ∀ c ∈ h, c ≠ '"')
    (hsuf : (str ".js") <:+ h) (hlen : (str ".js").length < h.length)
    (hattrs : ∀ c ∈ attrs, c ≠ '>') :
    lazyScan (str "src=\"") (str ".js") (str "</script>")
        (str "src=\"" ++ (h ++ '"' :: (attrs ++ '>' :: (str "</script>" ++ rest)))) =
      some (str "src=\"" ++ h ++ '"' :: (attrs ++ '>' :: str "</script>"), h, rest) := by
  rw [show str "src=\"" ++ (h ++ '"' :: (attrs ++ '>' :: (str "</script>" ++ rest))) =
      's' :: (str "rc=\"" ++ (h ++ '"' :: (attrs ++ '>' :: (str "</script>" ++ rest)))) from rfl]
  rw [lazyScan]
  have ha : tryAttr (str "src=\"") (str ".js") (str "</script>")
      ('s' :: (str "rc=\"" ++ (h ++ '"' :: (attrs ++ '>' :: (str "</script>" ++ rest))))) =
      some (str "src=\"" ++ h ++ '"' :: (attrs ++ '>' :: str "</script>"), h, rest) :=
    tryAttr_scriptElt_gen hq hsuf hlen hattrs
  rw [ha]

/-- The lazy `.*?` region skips the attribute text before the href/src
attribute: each position in `mid` fails the attribute attempt and contains no
line terminator, so the scan walks through `mid` and succeeds right after it. -/
theorem lazyScan_skip {attrq ext trailer : Str} {cons cap rest : Str} (z : Str)
    (hz : lazyScan attrq ext trailer z = some (cons, cap, rest)) :
    ∀ mid : Str, (∀ c ∈ mid, isLineTerminator c = false) →
      (∀ i, i < mid.length → tryAttr attrq ext trailer (mid.drop i ++ z) = none) →
      lazyScan attrq ext trailer (mid ++ z) = some (mid ++ cons, cap, rest) := by
  intro mid
  induction mid with
  | nil =>
    intro _ _
    simpa using hz
  | cons c t ih =>
    intro hterm hfail
    simp only [List.cons_append]
    rw [lazyScan]
    have h0 := hfail 0 (by simp)
    simp only [List.drop_zero, List.cons_append] at h0
    have hc : isLineTerminator c = false := hterm c (by simp)
    simp only [h0]
    rw [if_neg (by simp [hc])]
    rw [ih (fun x hx => hterm x (by simp [hx]))
        (fun i hi => by
          have := hfail (i + 1) (by simp; omega)
          simpa using this)]

theorem matchAt_linkElt_gen {ws mid h attrs rest : Str}
    (hws1 : ws ≠ []) (hws2 : ∀ c ∈ ws, isJsSpace c = true)
    (hmid1 : ∀ c ∈ mid, isLineTerminator c = false)
    (hmid2 : ∀ c ∈ mid.take 1, isJsSpace c = false)
    (hmid3 : ¬ (str "href=\"") <:+: mid)
    (hq : ∀ c ∈ h, c ≠ '"')
    (hsuf : (str ".css") <:+ h) (hlen : (str ".css").length < h.length)
    (hattrs : ∀ c ∈ attrs, c ≠ '>') :
    matchAt (str "<link") (str "href=\"") (str ".css") []
        (str "<link" ++ (ws ++ (mid ++ (str "href=\"" ++ (h ++ '"' :: (attrs ++ '>' :: rest)))))) =
      some (str "<link" ++ ws ++ (mid ++ (str "href=\"" ++ h ++ '"' :: (attrs ++ ['>']))),
            h, rest) := by
  unfold matchAt
  rw [if_pos (isPrefixOf_append_self _ _), List.drop_left]
  have hXhead : ∀ c ∈ (mid ++ (str "href=\"" ++ (h ++ '"' :: (attrs ++ '>' :: rest)))).take 1,
      isJsSpace c = false := by
    cases mid with
    | nil =>
      have he : (([] : Str) ++ (str "href=\"" ++ (h ++ '"' :: (attrs ++ '>' :: rest)))).take 1 =
          ['h'] := rfl
      rw [he]
      intro c hc
      simp at hc
      subst hc
      decide
    | cons m0 mt =>
      have he : ((m0 :: mt) ++ (str "href=\"" ++ (h ++ '"' :: (attrs ++ '>' :: rest)))).take 1 =
          [m0] := rfl
      rw [he]
      intro c hc
      simp at hc
      subst hc
      exact hmid2 _ (by simp)
  rw [takeWhile_append2 hws2 hXhead, dropWhile_append2 hws2 hXhead]
  rw [if_neg hws1]
  have hfail : ∀ i, i < mid.length →
      tryAttr (str "href=\"") (str ".css") []
        (mid.drop i ++ (str "href=\"" ++ (h ++ '"' :: (attrs ++ '>' :: rest)))) = none :=
    fun i hi => tryAttr_none_of_not_prefix
      (isPrefixOf_false_in_pre hmid3
        ⟨str "ref=\"" ++ (h ++ '"' :: (attrs ++ '>' :: rest)), rfl⟩
        (by decide) i hi)
  rw [lazyScan_skip _ (lazyScan_linkElt_gen hq hsuf hlen hattrs) mid hmid1 hfail]

theorem matchAt_scriptElt_gen {ws mid h attrs rest : Str}
    (hws1 : ws ≠ []) (hws2 : ∀ c ∈ ws, isJsSpace c = true)
    (hmid1 : ∀ c ∈ mid, isLineTerminator c = false)
    (hmid2 : ∀ c ∈ mid.take 1, isJsSpace c = false)
    (hmid3 : ¬ (str "src=\"") <:+: mid)
    (hq : ∀ c ∈ h, c ≠ '"')
    (hsuf : (str ".js") <:+ h) (hlen : (str ".js").length < h.length)
    (hattrs : ∀ c ∈ attrs, c ≠ '>') :
    matchAt (str "<script") (str "src=\"") (str ".js") (str "</script>")
        (str "<script" ++
          (ws ++ (mid ++ (str "src=\"" ++ (h ++ '"' :: (attrs ++ '>' :: (str "</script>" ++ rest))))))) =
      some (str "<script" ++ ws ++
              (mid ++ (str "src=\"" ++ h ++ '"' :: (attrs ++ '>' :: str "</script>"))),
            h, rest) := by
  unfold matchAt
  rw [if_pos (isPrefixOf_append_self _ _), List.drop_left]
  have hXhead : ∀ c ∈ (mid ++
      (str "src=\"" ++ (h ++ '"' :: (attrs ++ '>' :: (str "</script>" ++ rest))))).take 1,
      isJsSpace c = false := by
    cases mid with
    | nil =>
      have he : (([] : Str) ++
          (str "src=\"" ++ (h ++ '"' :: (attrs ++ '>' :: (str "</script>" ++ rest))))).take 1 =
          ['s'] := rfl
      rw [he]
      intro c hc
      simp at hc
      subst hc
      decide
    | cons m0 mt =>
      have he : ((m0 :: mt) ++
          (str "src=\"" ++ (h ++ '"' :: (attrs ++ '>' :: (str "</script>" ++ rest))))).take 1 =
          [m0] := rfl
      rw [he]
      intro c hc
      simp at hc
      subst hc
      exact hmid2 _ (by simp)
  rw [takeWhile_append2 hws2 hXhead, dropWhile_append2 hws2 hXhead]
  rw [if_neg hws1]
  have hfail : ∀ i, i < mid.length →
      tryAttr (str "src=\"") (str ".js") (str "</script>")
        (mid.drop i ++
          (str "src=\"" ++ (h ++ '"' :: (attrs ++ '>' :: (str "</script>" ++ rest))))) = none :=
    fun i hi => tryAttr_none_of_not_prefix
      (isPrefixOf_false_in_pre hmid3
        ⟨str "rc=\"" ++ (h ++ '"' :: (attrs ++ '>' :: (str "</script>" ++ rest))), rfl⟩
        (by decide) i hi)
  rw [lazyScan_skip _ (lazyScan_scriptElt_gen hq hsuf hlen hattrs) mid hmid1 hfail]

theorem tryAttr_some_attrq_starts {attrq ext trailer s cons cap r2 : Str}
    (h : tryAttr attrq ext trailer s = some (cons, cap, r2)) :
    attrq <+: cons := by
  unfold tryAttr at h
  split at h
  · next hpre =>
    split at h
    · next cap1 r1 hcap =>
      split at h
      · next tcons r2x htail =>
        injection h with h2
        injection h2 with ha hb
        subst ha
        exact ⟨cap1 ++ '"' :: tcons, by simp⟩
      · exact absurd h (by simp)
    · exact absurd h (by simp)
  · exact absurd h (by simp)

theorem lazyScan_attrq_occurs {attrq ext trailer s cons cap rest : Str}
    (h : lazyScan attrq ext trailer s = some (cons, cap, rest)) :
    attrq <:+: cons := by
  induction s generalizing cons cap rest with
  | nil => exact absurd h (by simp [lazyScan])
  | cons c t ih =>
    unfold lazyScan at h
    split at h
    · next r hattr =>
      cases h
      exact (tryAttr_some_attrq_starts hattr).isInfix
    · split at h
      · exact absurd h (by simp)
      · split at h
        · next cons2 cap2 rest2 hrec =>
          cases h
          exact (ih hrec).trans (List.suffix_cons c cons2).isInfix
        · exact absurd h (by simp)

theorem matchAt_attrq_occurs {tag attrq ext trailer s m cap rest : Str}
    (h : matchAt tag attrq ext trailer s = some (m, cap, rest)) :
    attrq <:+: s := by
  obtain ⟨hs, _⟩ := matchAt_eq h
  have hminfix : attrq <:+: m := by
    unfold matchAt at h
    split at h
    · next hpre =>
      split at h
      · exact absurd h (by simp)
      · split at h
        · next cons cap2 rest2 hscan =>
          injection h with h2
          injection h2 with ha hb
          subst ha
          exact (lazyScan_attrq_occurs hscan).trans (List.suffix_append _ cons).isInfix
        · exact absurd h (by simp)
    · exact absurd h (by simp)
  have hpm : m <+: s := ⟨rest, hs.symm⟩
  exact hminfix.trans hpm.isInfix

theorem matchAt_none_of_no_attrq {tag attrq ext trailer s : Str} (h : ¬ attrq <:+: s) :
    matchAt tag attrq ext trailer s = none := by
  cases hm : matchAt tag attrq ext trailer s with
  | none => rfl
  | some r =>
    obtain ⟨m, cap, rest⟩ := r
    exact absurd (matchAt_attrq_occurs hm) h

/-- Every match of an inlining regex contains the attribute text `attr="`, so
markup that nowhere contains that text is returned entirely unchanged. -/
theorem replaceScan_id_of_no_attrq {tag attrq ext trailer : Str} {repl : Str → Str → Str}
    {s : Str} (h : ¬ attrq <:+: s) :
    replaceScan tag attrq ext trailer repl s = s := by
  have hmk : ∀ i, i < s.length → matchAt tag attrq ext trailer (s.drop i ++ []) = none := by
    intro i hi
    apply matchAt_none_of_no_attrq
    intro hinf
    apply h
    have h2 : attrq <:+: s.drop i := by simpa using hinf
    exact h2.trans (List.drop_suffix i s).isInfix
  have hskip : replaceScan tag attrq ext trailer repl (s ++ []) =
      s ++ replaceScan tag attrq ext trailer repl [] :=
    replaceScan_skip s [] hmk
  simp only [List.append_nil, replaceScan_nil] at hskip
  exact hskip

theorem splitFirst_some {pat s pre post : Str} (h : splitFirst pat s = some (pre, post)) :
    s = pre ++ pat ++ post ∧
      ∀ pre2 post2, s = pre2 ++ pat ++ post2 → pre.length ≤ pre2.length := by
  induction s generalizing pre post with
  | nil =>
    unfold splitFirst at h
    split at h
    · next hp =>
      injection h with h2
      injection h2 with ha hb
      subst ha
      subst hb
      subst hp
      exact ⟨by simp, fun pre2 post2 h2 => by simp⟩
    · exact absurd h (by simp)
  | cons c t ih =>
    unfold splitFirst at h
    split at h
    · next hp =>
      injection h with h2
      injection h2 with ha hb
      subst ha
      subst hb
      constructor
      · simpa using isPrefixOf_eq_append hp
      · intro pre2 post2 h2
        simp
    · next hp =>
      split at h
      · next pr po hrec =>
        injection h with h2
        injection h2 with ha hb
        subst ha
        subst hb
        obtain ⟨ha2, hmin⟩ := ih hrec
        constructor
        · simp [ha2]
        · intro pre2 post2 h2
          cases pre2 with
          | nil =>
            exfalso
            apply hp
            rw [List.isPrefixOf_iff_prefix]
            exact ⟨post2, by simpa using h2.symm⟩
          | cons c2 pr2 =>
            simp only [List.cons_append, List.cons.injEq] at h2
            have := hmin pr2 post2 h2.2
            simp only [List.length_cons]
            omega
      · exact absurd h (by simp)

theorem splitFirst_none {pat s : Str} (h : splitFirst pat s = none) :
    ∀ pre post, s ≠ pre ++ pat ++ post := by
  induction s with
  | nil =>
    unfold splitFirst at h
    split at h
    · simp at h
    · next hp =>
      intro pre post heq
      have h1 := heq.symm
      rw [List.append_eq_nil, List.append_eq_nil] at h1
      exact hp h1.1.2
  | cons c t ih =>
    unfold splitFirst at h
    split at h
    · simp at h
    · next hp =>
      intro pre post heq
      cases hrec : splitFirst pat t with
      | some pr =>
        rw [hrec] at h
        simp at h
      | none =>
        cases pre with
        | nil =>
          apply hp
          rw [List.isPrefixOf_iff_prefix]
          exact ⟨post, by simpa using heq.symm⟩
        | cons c2 pr2 =>
          simp only [List.cons_append, List.cons.injEq] at heq
          exact ih hrec pr2 post heq.2

theorem getSubstitution_cons_ne {matched pre post : Str} {c : Char} {t : Str} (hc : c ≠ '$') :
    getSubstitution matched pre post (c :: t) = c :: getSubstitution matched pre post t := by
  rw [getSubstitution.eq_def]
  simp only [if_neg hc]

theorem getSubstitution_no_dollar {matched pre post : Str} :
    ∀ r : Str, '$' ∉ r → getSubstitution matched pre post r = r := by
  intro r
  induction r with
  | nil => intro _; rfl
  | cons c t ih =>
    intro hmem
    have hc : c ≠ '$' := fun hcc => hmem (by simp [hcc])
    rw [getSubstitution_cons_ne hc]
    rw [ih (fun hmm => hmem (by simp [hmm]))]

theorem jsReplaceFirst_of_some {s pat repl pre post : Str}
    (h : splitFirst pat s = some (pre, post)) :
    jsReplaceFirst s pat repl = pre ++ getSubstitution pat pre post repl ++ post := by
  unfold jsReplaceFirst
  simp only [h]

theorem jsReplaceFirst_of_none {s pat repl : Str} (h : splitFirst pat s = none) :
    jsReplaceFirst s pat repl = s := by
  unfold jsReplaceFirst
  simp only [h]

theorem getPreviewContent_compose {files : List WebFile} {page : Str} {f : WebFile}
    (hne : files ≠ []) (hfind : files.find? (fun g => g.name == page) = some f)
    (hsuf : (str ".html") <:+ f.name) :
    getPreviewContent files page =
      jsReplaceFirst (replaceScripts files (replaceLinks files f.content))
        (str "</body>") (navigationScript files ++ str "</body>") := by
  unfold getPreviewContent
  rw [if_neg (by simpa [List.length_eq_zero] using hne)]
  rw [hfind]
  dsimp only
  rw [if_pos (List.isSuffixOf_iff_suffix.mpr hsuf)]

/-- C1, counterexample: `<link href='style.css'>` is a link element whose href
is a relative path ending `.css` naming a file present in the FileSet, yet the
compositor leaves it untouched and inlines nothing — the inlining pattern only
recognises double-quoted href attributes. -/
theorem claim1_counterexample :
    getPreviewContent
        [⟨str "index.html", str "<link href='style.css'>"⟩,
         ⟨str "style.css", str "body\x7bcolor:red\x7d"⟩] (str "index.html") =
      str "<link href='style.css'>" ∧
    ¬ (str "<style>") <:+:
      getPreviewContent
        [⟨str "index.html", str "<link href='style.css'>"⟩,
         ⟨str "style.css", str "body\x7bcolor:red\x7d"⟩] (str "index.html") ∧
    ([⟨str "index.html", str "<link href='style.css'>"⟩,
      ⟨str "style.css", str "body\x7bcolor:red\x7d"⟩] : List WebFile).any
      (fun f => f.name == str "style.css") = true := by
  refine ⟨by decide, by decide, by decide⟩

/-- C1 (amended): inlining is driven purely by the textual pattern the code's
regexes recognise, and on that pattern it behaves as specified.  (Parts 1-2)
Every link element of the form `<link` + whitespace + A + `href="h"` + B + `>`
— where the attribute text A before the href contains no line terminator, does
not itself contain the text `href="`, and does not start with whitespace; the
attribute text B after the quoted path contains no `>`; and `h` is a quote-free
path ending `.css` with at least one character before the extension — is
replaced by an inline style block containing the referenced file's content
verbatim when that file is present in the FileSet, and is left unchanged when
it is absent; likewise script elements `<script` + whitespace + A + `src="h"` +
B + `>` + `</script>` with `h` ending `.js`.  (Parts 3-4) Markup that nowhere
contains the literal text `href="` (resp. `src="`) — e.g. markup writing every
link with single quotes, unquoted attribute values, or uppercase `HREF` — is
left entirely unchanged by the corresponding inlining pass, even when the
referenced files exist. -/
theorem claim1 :
    (∀ (files : List WebFile) (pre ws mid h attrs rest : Str),
      ¬ (str "<link") <:+: pre →
      ws ≠ [] → (∀ c ∈ ws, isJsSpace c = true) →
      (∀ c ∈ mid, isLineTerminator c = false) →
      (∀ c ∈ mid.take 1, isJsSpace c = false) →
      ¬ (str "href=\"") <:+: mid →
      (∀ c ∈ h, c ≠ '"') →
      (str ".css") <:+ h → (str ".css").length < h.length →
      (∀ c ∈ attrs, c ≠ '>') →
      replaceLinks files
          (pre ++ (str "<link" ++ ws ++ mid ++ str "href=\"" ++ h ++ '"' :: attrs ++ ['>']) ++
            rest) =
        pre ++
          (match files.find? (fun f => f.name == h) with
           | some cssFile => str "<style>\n" ++ cssFile.content ++ str "\n</style>"
           | none => str "<link" ++ ws ++ mid ++ str "href=\"" ++ h ++ '"' :: attrs ++ ['>']) ++
          replaceLinks files rest) ∧
    (∀ (files : List WebFile) (pre ws mid h attrs rest : Str),
      ¬ (str "<script") <:+: pre →
      ws ≠ [] → (∀ c ∈ ws, isJsSpace c = true) →
      (∀ c ∈ mid, isLineTerminator c = false) →
      (∀ c ∈ mid.take 1, isJsSpace c = false) →
      ¬ (str "src=\"") <:+: mid →
      (∀ c ∈ h, c ≠ '"') →
      (str ".js") <:+ h → (str ".js").length < h.length →
      (∀ c ∈ attrs, c ≠ '>') →
      replaceScripts files
          (pre ++
            (str "<script" ++ ws ++ mid ++ str "src=\"" ++ h ++ '"' :: attrs ++ '>' ::
              str "</script>") ++ rest) =
        pre ++
          (match files.find? (fun f => f.name == h) with
           | some jsFile => str "<script>\n" ++ jsFile.content ++ str "\n</script>"
           | none => str "<script" ++ ws ++ mid ++ str "src=\"" ++ h ++ '"' :: attrs ++ '>' ::
               str "</script>") ++
          replaceScripts files rest) ∧
    (∀ (files : List WebFile) (s : Str),
      ¬ (str "href=\"") <:+: s → replaceLinks files s = s) ∧
    (∀ (files : List WebFile) (s : Str),
      ¬ (str "src=\"") <:+: s → replaceScripts files s = s) := by
  refine ⟨?_, ?_, ?_, ?_⟩
  · intro files pre ws mid h attrs rest hpre hws1 hws2 hmid1 hmid2 hmid3 hq hsuf hlen hattrs
    unfold replaceLinks
    simp only [List.append_assoc, List.cons_append, List.singleton_append, List.nil_append]
    rw [replaceScan_skip pre
        (str "<link" ++ (ws ++ (mid ++ (str "href=\"" ++ (h ++ '"' :: (attrs ++ '>' :: rest))))))
        (fun i hi => matchAt_none_of_not_prefix
          (isPrefixOf_false_in_pre hpre
            ⟨str "link" ++ (ws ++ (mid ++ (str "href=\"" ++ (h ++ '"' :: (attrs ++ '>' :: rest))))),
              rfl⟩
            (by decide) i hi))]
    rw [show str "<link" ++ (ws ++ (mid ++ (str "href=\"" ++ (h ++ '"' :: (attrs ++ '>' :: rest))))) =
        '<' :: (str "link" ++ (ws ++ (mid ++ (str "href=\"" ++ (h ++ '"' :: (attrs ++ '>' :: rest))))))
        from rfl]
    have hm : matchAt (str "<link") (str "href=\"") (str ".css") []
        ('<' :: (str "link" ++ (ws ++ (mid ++ (str "href=\"" ++ (h ++ '"' :: (attrs ++ '>' :: rest))))))) =
        some (str "<link" ++ ws ++ (mid ++ (str "href=\"" ++ h ++ '"' :: (attrs ++ ['>']))),
              h, rest) :=
      matchAt_linkElt_gen hws1 hws2 hmid1 hmid2 hmid3 hq hsuf hlen hattrs
    rw [replaceScan_cons_some (styleRepl files) hm]
    cases hfind : files.find? (fun f => f.name == h) with
    | none =>
      simp only [styleRepl, hfind]
      simp only [List.append_assoc, List.cons_append, List.nil_append, List.singleton_append]
      try rfl
    | some cssFile =>
      simp only [styleRepl, hfind]
      simp only [List.append_assoc, List.cons_append, List.nil_append, List.singleton_append]
      try rfl
  · intro files pre ws mid h attrs rest hpre hws1 hws2 hmid1 hmid2 hmid3 hq hsuf hlen hattrs
    unfold replaceScripts
    simp only [List.append_assoc, List.cons_append, List.singleton_append, List.nil_append]
    rw [replaceScan_skip pre
        (str "<script" ++
          (ws ++ (mid ++ (str "src=\"" ++ (h ++ '"' :: (attrs ++ '>' :: (str "</script>" ++ rest)))))))
        (fun i hi => matchAt_none_of_not_prefix
          (isPrefixOf_false_in_pre hpre
            ⟨str "script" ++
              (ws ++ (mid ++ (str "src=\"" ++ (h ++ '"' :: (attrs ++ '>' :: (str "</script>" ++ rest)))))),
              rfl⟩
            (by decide) i hi))]
    rw [show str "<script" ++
        (ws ++ (mid ++ (str "src=\"" ++ (h ++ '"' :: (attrs ++ '>' :: (str "</script>" ++ rest)))))) =
        '<' :: (str "script" ++
          (ws ++ (mid ++ (str "src=\"" ++ (h ++ '"' :: (attrs ++ '>' :: (str "</script>" ++ rest)))))))
        from rfl]
    have hm : matchAt (str "<script") (str "src=\"") (str ".js") (str "</script>")
        ('<' :: (str "script" ++
          (ws ++ (mid ++ (str "src=\"" ++ (h ++ '"' :: (attrs ++ '>' :: (str "</script>" ++ rest)))))))) =
        some (str "<script" ++ ws ++
                (mid ++ (str "src=\"" ++ h ++ '"' :: (attrs ++ '>' :: str "</script>"))),
              h, rest) :=
      matchAt_scriptElt_gen hws1 hws2 hmid1 hmid2 hmid3 hq hsuf hlen hattrs
    rw [replaceScan_cons_some (scriptRepl files) hm]
    cases hfind : files.find? (fun f => f.name == h) with
    | none =>
      simp only [scriptRepl, hfind]
      simp only [List.append_assoc, List.cons_append, List.nil_append, List.singleton_append]
      try rfl
    | some jsFile =>
      simp only [scriptRepl, hfind]
      simp only [List.append_assoc, List.cons_append, List.nil_append, List.singleton_append]
      try rfl
  · intro files s hno
    unfold replaceLinks
    exact replaceScan_id_of_no_attrq hno
  · intro files s hno
    unfold replaceScripts
    exact replaceScan_id_of_no_attrq hno

/-- C1, witness for the amended claim: a link element carrying an extra
attribute, `<link rel="stylesheet" href="style.css">`, is inlined when
`style.css` exists. -/
theorem claim1_witness :
    replaceLinks [⟨str "style.css", str "body\x7bcolor:red\x7d"⟩]
        (str "<head>" ++
          (str "<link" ++ str " " ++ str "rel=\"stylesheet\" " ++ str "href=\"" ++
            str "style.css" ++ '"' :: ([] : Str) ++ ['>']) ++
          str "</head>") =
      str "<head>" ++
        (match ([⟨str "style.css", str "body\x7bcolor:red\x7d"⟩] : List WebFile).find?
            (fun f => f.name == str "style.css") with
         | some cssFile => str "<style>\n" ++ cssFile.content ++ str "\n</style>"
         | none => str "<link" ++ str " " ++ str "rel=\"stylesheet\" " ++ str "href=\"" ++
             str "style.css" ++ '"' :: ([] : Str) ++ ['>']) ++
        replaceLinks [⟨str "style.css", str "body\x7bcolor:red\x7d"⟩] (str "</head>") :=
  claim1.1 [⟨str "style.css", str "body\x7bcolor:red\x7d"⟩] (str "<head>") (str " ")
    (str "rel=\"stylesheet\" ") (str "style.css") [] (str "</head>")
    (by decide) (by decide) (by decide) (by decide) (by decide) (by decide) (by decide)
    (by decide) (by decide) (by decide)


/-- C5, counterexample: the page's markup `<script src="a.js"></script>`
contains no closing body tag, so the claim says the composed output equals the
inlined markup with no navigation script injected.  But the inlined `a.js`
content contains the string literal `"</body>"`, the injection point is
computed on the inlined text, and the navigation script is spliced into the
middle of the script element — the output differs from the inlined markup. -/
theorem claim5_counterexample :
    ¬ (str "</body>") <:+: (str "<script src=\"a.js\"></script>") ∧
    getPreviewContent
        [⟨str "index.html", str "<script src=\"a.js\"></script>"⟩,
         ⟨str "a.js", str "x=\"</body>\""⟩] (str "index.html") ≠
      replaceScripts
        [⟨str "index.html", str "<script src=\"a.js\"></script>"⟩,
         ⟨str "a.js", str "x=\"</body>\""⟩]
        (replaceLinks
          [⟨str "index.html", str "<script src=\"a.js\"></script>"⟩,
           ⟨str "a.js", str "x=\"</body>\""⟩] (str "<script src=\"a.js\"></script>")) := by
  constructor
  · decide
  · decide

/-- C5 (amended): the navigation script's injection point is determined on the
INLINED markup, not the page's original markup: when the substring `</body>`
does not occur in the inlined markup the output equals the inlined markup
unchanged, and when it does, the script (together with a restored `</body>`) is
spliced in at the FIRST such occurrence — which need not be the document's real
closing body tag — after JavaScript string-replacement `$`-substitution, which
leaves the script unchanged whenever it contains no dollar sign. -/
theorem claim5 (files : List WebFile) (page : Str) (f : WebFile)
    (hne : files ≠ [])
    (hfind : files.find? (fun g => g.name == page) = some f)
    (hsuf : (str ".html") <:+ f.name) :
    (splitFirst (str "</body>") (replaceScripts files (replaceLinks files f.content)) = none →
      getPreviewContent files page = replaceScripts files (replaceLinks files f.content)) ∧
    (∀ pre post,
      splitFirst (str "</body>") (replaceScripts files (replaceLinks files f.content)) =
        some (pre, post) →
      replaceScripts files (replaceLinks files f.content) = pre ++ str "</body>" ++ post ∧
      (∀ pre2 post2,
        replaceScripts files (replaceLinks files f.content) = pre2 ++ str "</body>" ++ post2 →
        pre.length ≤ pre2.length) ∧
      getPreviewContent files page =
        pre ++ getSubstitution (str "</body>") pre post
                (navigationScript files ++ str "</body>") ++ post ∧
      ('$' ∉ navigationScript files →
        getPreviewContent files page =
          pre ++ navigationScript files ++ str "</body>" ++ post)) := by
  have hgp := getPreviewContent_compose hne hfind hsuf
  constructor
  · intro hnone
    rw [hgp, jsReplaceFirst_of_none hnone]
  · intro pre post hsome
    obtain ⟨ha, hmin⟩ := splitFirst_some hsome
    refine ⟨ha, hmin, ?_, ?_⟩
    · rw [hgp, jsReplaceFirst_of_some hsome]
    · intro hdollar
      rw [hgp, jsReplaceFirst_of_some hsome]
      have hd2 : '$' ∉ navigationScript files ++ str "</body>" := by
        intro hmm
        rcases List.mem_append.mp hmm with hx | hx
        · exact hdollar hx
        · revert hx
          decide
      rw [getSubstitution_no_dollar _ hd2]
      simp only [List.append_assoc]

/-- C5, witness for the amended claim: a page whose inlined markup contains one
`</body>` occurrence gets the navigation script spliced in right before it. -/
theorem claim5_witness :
    getPreviewContent [⟨str "index.html", str "<body><a href=\"x\">y</a></body>"⟩]
        (str "index.html") =
      str "<body><a href=\"x\">y</a>" ++
        getSubstitution (str "</body>") (str "<body><a href=\"x\">y</a>") []
          (navigationScript [⟨str "index.html", str "<body><a href=\"x\">y</a></body>"⟩] ++
            str "</body>") ++ [] :=
  (((claim5 [⟨str "index.html", str "<body><a href=\"x\">y</a></body>"⟩]
      (str "index.html") ⟨str "index.html", str "<body><a href=\"x\">y</a></body>"⟩
      (by simp) rfl (by decide)).2
    (str "<body><a href=\"x\">y</a>") [] (by decide))).2.2.1

/-- C2, counterexample: replace the file set by one that contains only
`main.html` while the active preview page is `about.html`.  The effect resets
the page to the literal `index.html`, which does not exist in the new file set;
it does not fall back to the first file (`main.html`).  Both the fallback rule
and the claimed invariant fail. -/
theorem claim2_counterexample :
    resetActivePreviewPage [⟨str "main.html", str "<p>m</p>"⟩] (str "about.html") =
      str "index.html" ∧
    ([⟨str "main.html", str "<p>m</p>"⟩] : List WebFile).any
      (fun f => f.name == str "index.html") = false ∧
    (([⟨str "main.html", str "<p>m</p>"⟩] : List WebFile).head?.map WebFile.name) =
      some (str "main.html") ∧
    str "main.html" ≠ str "index.html" := by
  refine ⟨by decide, by decide, by decide, by decide⟩

/-- C2 (amended): when the active preview page disappears from the file set the
store resets it unconditionally to the literal `index.html`, whether or not such
a file exists; consequently the post-state references an existing file iff the
old page still exists or the new file set contains `index.html`. -/
theorem claim2_amended (files : List WebFile) (page : Str) :
    (files.any (fun f => f.name == page) = true →
      resetActivePreviewPage files page = page) ∧
    (files.any (fun f => f.name == page) = false →
      resetActivePreviewPage files page = str "index.html") ∧
    (files.any (fun f => f.name == resetActivePreviewPage files page) = true ↔
      (files.any (fun f => f.name == page) = true ∨
       files.any (fun f => f.name == str "index.html") = true)) := by
  unfold resetActivePreviewPage
  by_cases hp : files.any (fun f => f.name == page) = true
  · simp [hp]
  · have hp' := any_eq_false_of_not_true hp
    simp [hp']

/-- C2, witness for the amended claim at a concrete input. -/
theorem claim2_witness :
    resetActivePreviewPage [⟨str "about.html", str "A"⟩, ⟨str "index.html", str "I"⟩]
      (str "gone.html") = str "index.html" :=
  (claim2_amended [⟨str "about.html", str "A"⟩, ⟨str "index.html", str "I"⟩]
    (str "gone.html")).2.1 (by decide)

/-- C3, counterexample: for the empty file set the compositor returns the empty
string, not the diagnostic comment, although no file named `missing.html`
exists. -/
theorem claim3_counterexample :
    getPreviewContent [] (str "missing.html") = [] ∧
    getPreviewContent [] (str "missing.html") ≠ previewErrorComment (str "missing.html") := by
  exact ⟨rfl, by decide⟩

/-- C3 (amended): for every non-empty file set and page name such that no file
has that name with the `.html` suffix, the compositor returns the diagnostic
comment (and, being a total function, never throws). -/
theorem claim3_amended (files : List WebFile) (page : Str)
    (hne : files ≠ [])
    (hmiss : ∀ f ∈ files, ¬(f.name = page ∧ (str ".html") <:+ page)) :
    getPreviewContent files page = previewErrorComment page := by
  unfold getPreviewContent
  have hlen : ¬ files.length = 0 := by
    simpa [List.length_eq_zero] using hne
  rw [if_neg hlen]
  cases hfind : files.find? (fun f => f.name == page) with
  | none => rfl
  | some f =>
    have hmem : f ∈ files := List.mem_of_find?_eq_some hfind
    have hname : f.name = page := by
      have := List.find?_some hfind
      simpa using this
    have hnsuf : ¬ ((str ".html").isSuffixOf f.name = true) := by
      rw [List.isSuffixOf_iff_suffix, hname]
      intro hs
      exact hmiss f hmem ⟨hname, hs⟩
    dsimp only
    rw [if_neg hnsuf]

/-- C3, witness for the amended claim at a concrete input. -/
theorem claim3_witness :
    getPreviewContent [⟨str "style.css", str "b"⟩] (str "missing.html") =
      previewErrorComment (str "missing.html") :=
  claim3_amended [⟨str "style.css", str "b"⟩] (str "missing.html") (by decide) (by decide)

/-- C4: behaviour of the embedded click interceptor.  A missing href, an empty
href, an href starting with the absolute-URL scheme marker `http`, or one
starting with `#` is left to the browser (no interception); otherwise an href
that exactly matches a page-table entry is intercepted (default prevented, body
swapped, outbound signal posted), and an href matching no entry does nothing
observable. -/
theorem claim4 (pages : List WebFile) (h : Str) :
    (clickHandler pages none = ClickOutcome.native) ∧
    (h = [] ∨ (str "http") <+: h ∨ (str "#") <+: h →
      clickHandler pages (some h) = ClickOutcome.native) ∧
    (h ≠ [] → ¬ (str "http") <+: h → ¬ (str "#") <+: h →
      ((∀ t, pages.find? (fun p => p.name == h) = some t →
          clickHandler pages (some h) = ClickOutcome.intercepted t) ∧
       (pages.find? (fun p => p.name == h) = none →
          clickHandler pages (some h) = ClickOutcome.native))) := by
  have hck : ∀ hh : Str, clickHandler pages (some hh) =
      (match pages.find? (fun p => p.name == hh) with
       | some targetPage =>
         if !hh.isEmpty && !(str "http").isPrefixOf hh && !(str "#").isPrefixOf hh then
           ClickOutcome.intercepted targetPage
         else ClickOutcome.native
       | none => ClickOutcome.native) := fun _ => rfl
  refine ⟨rfl, ?_, ?_⟩
  · intro hcase
    rw [hck h]
    cases hfind : pages.find? (fun p => p.name == h) with
    | none => rfl
    | some t =>
      rcases hcase with he | hh2 | hf2
      · subst he
        rfl
      · have hb : (str "http").isPrefixOf h = true := List.isPrefixOf_iff_prefix.mpr hh2
        simp [hb]
      · have hb : (str "#").isPrefixOf h = true := List.isPrefixOf_iff_prefix.mpr hf2
        simp [hb]
  · intro hne hh2 hf2
    have h1 : h.isEmpty = false := by
      cases h with
      | nil => exact absurd rfl hne
      | cons a b => rfl
    have h2 : (str "http").isPrefixOf h = false := by
      cases hx : (str "http").isPrefixOf h
      · rfl
      · exact absurd (List.isPrefixOf_iff_prefix.mp hx) hh2
    have h3 : (str "#").isPrefixOf h = false := by
      cases hx : (str "#").isPrefixOf h
      · rfl
      · exact absurd (List.isPrefixOf_iff_prefix.mp hx) hf2
    constructor
    · intro t hfind
      rw [hck h, hfind]
      simp [h1, h2, h3]
    · intro hfind
      rw [hck h, hfind]

/-- C4, witness: a click on `about.html`, present in the page table, is
intercepted. -/
theorem claim4_witness :
    clickHandler [⟨str "about.html", str "<body>a</body>"⟩] (some (str "about.html")) =
      ClickOutcome.intercepted ⟨str "about.html", str "<body>a</body>"⟩ :=
  ((claim4 [⟨str "about.html", str "<body>a</body>"⟩] (str "about.html")).2.2
    (by decide) (by decide) (by decide)).1 ⟨str "about.html", str "<body>a</body>"⟩ rfl

/-- C6: the compositor is a pure function of the file set and the page name —
it reads no clock and no randomness source — so recomposing with unchanged
inputs yields byte-identical output. -/
theorem claim6 (files : List WebFile) (page : Str) :
    getPreviewContent files page = getPreviewContent files page ∧
    (∀ (files2 : List WebFile) (page2 : Str), files = files2 → page = page2 →
      getPreviewContent files page = getPreviewContent files2 page2) := by
  refine ⟨rfl, ?_⟩
  intro files2 page2 hf hp
  rw [hf, hp]

/-- C6, witness at a concrete input. -/
theorem claim6_witness :
    getPreviewContent [⟨str "index.html", str "<body>x</body>"⟩] (str "index.html") =
      getPreviewContent [⟨str "index.html", str "<body>x</body>"⟩] (str "index.html") :=
  (claim6 [⟨str "index.html", str "<body>x</body>"⟩] (str "index.html")).2
    [⟨str "index.html", str "<body>x</body>"⟩] (str "index.html") rfl rfl

/-- C8: requests are gated by the busy flags.  An invocation of
`handleGenerate` while `isGenerating` is set, or of `handleRefine` while
`isRefining` is set, returns at the guard: the state is unchanged and no
request is issued (ignored, not queued). -/
theorem claim8 :
    (∀ (s : AppState) (p : Str), s.isGenerating = true →
      handleGenerateStart s p = (s, none)) ∧
    (∀ (now : Nat) (s : AppState), s.isRefining = true →
      handleRefineStart now s = (s, none)) := by
  constructor
  · intro s p hg
    unfold handleGenerateStart
    rw [if_pos]
    rw [hg, Bool.or_true]
  · intro now s hr
    unfold handleRefineStart
    rw [if_pos]
    rw [hr, Bool.or_true]

/-- C8, witness: a busy state ignores both kinds of request. -/
theorem claim8_witness :
    handleGenerateStart ⟨none, true, true, str "x", [], none⟩ (str "make an app") =
      (⟨none, true, true, str "x", [], none⟩, none) ∧
    handleRefineStart 5 ⟨none, true, true, str "x", [], none⟩ =
      (⟨none, true, true, str "x", [], none⟩, none) :=
  ⟨claim8.1 ⟨none, true, true, str "x", [], none⟩ (str "make an app") rfl,
   claim8.2 5 ⟨none, true, true, str "x", [], none⟩ rfl⟩

/-- C9, counterexample: a file set with two files named `a.html` enters the
store verbatim — it is neither rejected (the path is total and error-free) nor
collapsed (both files are retained), so the held file set violates name
uniqueness. -/
theorem claim9_counterexample :
    storeGeneratedFiles [⟨str "a.html", str "x"⟩, ⟨str "a.html", str "y"⟩] =
      [⟨str "a.html", str "x"⟩, ⟨str "a.html", str "y"⟩] ∧
    (storeGeneratedFiles [⟨str "a.html", str "x"⟩, ⟨str "a.html", str "y"⟩]).length = 2 ∧
    ¬ ((storeGeneratedFiles [⟨str "a.html", str "x"⟩, ⟨str "a.html", str "y"⟩]).map
        WebFile.name).Nodup := by
  refine ⟨rfl, rfl, by decide⟩

/-- C9 (amended): no uniqueness policy exists — incoming file sets are stored
verbatim, duplicates included; name-based lookup is nevertheless deterministic,
always resolving to the first file bearing the name. -/
theorem claim9_amended :
    (∀ incoming : List WebFile, storeGeneratedFiles incoming = incoming) ∧
    (∀ (pre rest : List WebFile) (f : WebFile) (n : Str),
      f.name = n → (∀ g ∈ pre, g.name ≠ n) →
      (storeGeneratedFiles (pre ++ f :: rest)).find? (fun g => g.name == n) = some f) := by
  constructor
  · intro incoming
    rfl
  · intro pre rest f n hf hpre
    unfold storeGeneratedFiles
    induction pre with
    | nil =>
      simp [List.find?_cons, hf]
    | cons g gs ih =>
      have hg : (g.name == n) = false := by
        have hne := hpre g (by simp)
        cases hx : g.name == n
        · rfl
        · exact absurd (by simpa using hx) hne
      rw [List.cons_append, List.find?_cons, hg]
      exact ih (fun x hx => hpre x (by simp [hx]))

/-- C9, witness: lookup in a duplicated file set resolves to the first file. -/
theorem claim9_witness :
    (storeGeneratedFiles ([] ++ ⟨str "a.html", str "x"⟩ :: [⟨str "a.html", str "y"⟩])).find?
        (fun g => g.name == str "a.html") = some ⟨str "a.html", str "x"⟩ :=
  claim9_amended.2 [] [⟨str "a.html", str "y"⟩] ⟨str "a.html", str "x"⟩ (str "a.html")
    rfl (by decide)

theorem parseJsonResponse_eq (jp : Str → Option JsValue) (required : List Str) (rawText : Str) :
    parseJsonResponse jp required rawText =
      (match directAttempt jp required rawText with
       | some v => ParseOutcome.ok v
       | none =>
         match fencedAttempt jp required rawText with
         | some v => ParseOutcome.ok v
         | none => ParseOutcome.err parseErrorMessage) := by
  unfold parseJsonResponse parseFallback directAttempt fencedAttempt
  repeat' split
  all_goals simp_all

theorem directAttempt_keys {jp : Str → Option JsValue} {required : List Str} {rawText : Str}
    {v : JsValue} (h : directAttempt jp required rawText = some v) :
    keysOk required v = some true := by
  unfold directAttempt at h
  split at h
  · next w hw =>
    split at h
    · next hk =>
      injection h with h2
      subst h2
      exact hk
    · next x hx => exact absurd h (by simp)
  · exact absurd h (by simp)

theorem fencedAttempt_keys {jp : Str → Option JsValue} {required : List Str} {rawText : Str}
    {v : JsValue} (h : fencedAttempt jp required rawText = some v) :
    keysOk required v = some true := by
  unfold fencedAttempt at h
  split at h
  · next cap hcap =>
    split at h
    · next w hw =>
      split at h
      · next hk =>
        injection h with h2
        subst h2
        exact hk
      · next x hx => exact absurd h (by simp)
    · exact absurd h (by simp)
  · exact absurd h (by simp)

/-- C7: response parsing first attempts a direct JSON parse of the whole body;
on a thrown error (parse failure, missing required key, or the `in` TypeError)
it attempts to extract and parse a fenced json block; it returns a parsed value
exactly when one of the two attempts yields a value with every required
top-level key, and otherwise throws the parse error.  `jp` abstracts the host
`JSON.parse`. -/
theorem claim7 (jp : Str → Option JsValue) (required : List Str) (rawText : Str) :
    (parseJsonResponse jp required rawText =
      (match directAttempt jp required rawText with
       | some v => ParseOutcome.ok v
       | none =>
         match fencedAttempt jp required rawText with
         | some v => ParseOutcome.ok v
         | none => ParseOutcome.err parseErrorMessage)) ∧
    (∀ v : JsValue, parseJsonResponse jp required rawText = ParseOutcome.ok v →
      keysOk required v = some true) := by
  refine ⟨parseJsonResponse_eq jp required rawText, ?_⟩
  intro v hv
  rw [parseJsonResponse_eq] at hv
  cases hd : directAttempt jp required rawText with
  | some w =>
    rw [hd] at hv
    simp at hv
    rw [← hv]
    exact directAttempt_keys hd
  | none =>
    rw [hd] at hv
    cases hf : fencedAttempt jp required rawText with
    | some w =>
      rw [hf] at hv
      simp at hv
      rw [← hv]
      exact fencedAttempt_keys hf
    | none =>
      rw [hf] at hv
      simp at hv

/-- C7, witness: a direct parse that succeeds with the required key present. -/
theorem claim7_witness :
    keysOk [str "files"] (JsValue.obj [str "files"]) = some true :=
  (claim7 (fun s => if s == str "OBJ" then some (JsValue.obj [str "files"]) else none)
    [str "files"] (str "OBJ")).2 (JsValue.obj [str "files"]) rfl

/-- C10: for a null or empty file list the compositor returns the empty string
for every page name — not the missing-page diagnostic comment and not a
document. -/
theorem claim10 (page : Str) :
    getPreviewContentNullable none page = [] ∧
    getPreviewContent [] page = [] ∧
    getPreviewContent [] page ≠ previewErrorComment page := by
  refine ⟨rfl, rfl, fun hcontra => ?_⟩
  unfold previewErrorComment at hcontra
  have h1 : str "<!-- Preview Error: Could not find HTML file \"" ++ page ++ str "\" -->" =
      ([] : Str) := by
    rw [← hcontra]
    rfl
  rw [List.append_eq_nil] at h1
  rw [List.append_eq_nil] at h1
  exact absurd h1.1.1 (by decide)

end AaaSpec
